import Mathlib

/-!
Verification of the supershell quest/objective engine.

The repository contains two independent implementations of the quest concept:

* a sequential model (`src/supershell/game/models.py`,
  `src/supershell/game/quest_manager.py`, `src/supershell/game/objective_checker.py`)
  with ordered objectives and incremental completion, embedded below in
  namespace `Game`;
* a gated model (`supershell/quest.py`, `supershell/auditors.py`,
  `supershell/main.py`) with atomic prerequisite/completion check bundles,
  embedded below in namespace `Audit`.

Filesystem, process and network state is modelled by explicit environment
records; Python exceptions are modelled with `Except`.
-/

namespace Supershell

/-- Kind of filesystem entry a path resolves to, as seen by `os.path.isdir`
and `os.path.isfile`: a regular file, a directory, some other existing
entry, or nothing. -/
inductive PathKind where
  | file
  | dir
  | other
  | absent
deriving DecidableEq

/-- Boolean prefix test on character lists. -/
def listPrefixB : List Char → List Char → Bool
  | [], _ => true
  | _ :: _, [] => false
  | a :: as, b :: bs => decide (a = b) && listPrefixB as bs

/-- Model of `os.path.expanduser` for the plain leading-`~` shorthand:
a path that is exactly `~` or starts with `~/` has the `~` replaced by the
home directory; other paths are returned unchanged. -/
def expanduser (home p : String) : String :=
  if p = "~" then home
  else if listPrefixB ['~', '/'] p.data then home ++ String.mk (p.data.drop 1)
  else p

/-- Whitespace tokenizer modelling Python's `str.split()` with no
arguments: maximal runs of non-whitespace characters; leading, trailing
and repeated whitespace yield no tokens.  `cur` accumulates the current
token in reverse. -/
def splitWsAux (cur : List Char) : List Char → List (List Char)
  | [] => if cur.isEmpty then [] else [cur.reverse]
  | c :: rest =>
    if c.isWhitespace then
      if cur.isEmpty then splitWsAux [] rest
      else cur.reverse :: splitWsAux [] rest
    else splitWsAux (c :: cur) rest

/-- The token list of `command.strip().split()`; the leading `strip()`
does not change the token list, since the tokenizer already ignores
leading and trailing whitespace. -/
def pyTokens (s : String) : List (List Char) := splitWsAux [] s.data

/-- Boolean substring test on character lists: does `pat` occur as a
contiguous run inside `l`?  Models Python's `pat in s`. -/
def containsSub (pat : List Char) : List Char → Bool
  | [] => pat.isEmpty
  | c :: rest => listPrefixB pat (c :: rest) || containsSub pat rest

/-- Boolean substring test on strings, modelling Python's `pat in s`. -/
def containsStr (s pat : String) : Bool :=
  containsSub pat.data s.data

instance instDecEqExcept {e a : Type} [DecidableEq e] [DecidableEq a] :
    DecidableEq (Except e a) := fun x y =>
  match x, y with
  | Except.error u, Except.error v =>
    if h : u = v then Decidable.isTrue (h ▸ rfl)
    else Decidable.isFalse (fun hh => h (Except.error.inj hh))
  | Except.ok u, Except.ok v =>
    if h : u = v then Decidable.isTrue (h ▸ rfl)
    else Decidable.isFalse (fun hh => h (Except.ok.inj hh))
  | Except.error _, Except.ok _ => Decidable.isFalse (fun hh => Except.noConfusion hh)
  | Except.ok _, Except.error _ => Decidable.isFalse (fun hh => Except.noConfusion hh)

namespace Game

/-- The result of executing one shell command
(`src/supershell/shell/executor.py`, dataclass `CommandResult`). -/
structure CommandResult where
  command : String
  stdout : String
  stderr : String
  return_code : Int
deriving DecidableEq

/-- Ambient system state the sequential checkers consult: the home directory
used by `os.path.expanduser` and the filesystem as a map from absolute path
to what is found there. -/
structure Env where
  home : String
  fs : String → PathKind

/-- One task for the player (`src/supershell/game/models.py`, dataclass
`Objective`).  The open `criteria` dict is modelled as an association list;
`getCrit` below models `dict.get`. -/
structure Objective where
  id : String
  description : String
  type : String
  criteria : List (String × String)
  hint : String
  success_message : String
  completed : Bool
deriving DecidableEq

/-- Model of `dict.get(key)` on an objective's `criteria` mapping. -/
def getCrit (c : List (String × String)) (k : String) : Option String :=
  (c.find? (fun kv => decide (kv.fst = k))).map (fun kv => kv.snd)

/-- A full quest with ordered objectives (`src/supershell/game/models.py`,
dataclass `Quest`). -/
structure Quest where
  id : String
  title : String
  description : String
  objectives : List Objective
  completed : Bool
deriving DecidableEq

/-- Field bag for one objective as it appears in a parsed quest file,
after `Objective.from_dict` has applied its defaults for the optional
keys (`criteria`, `hint`, `success_message`). -/
structure ObjectiveIn where
  id : String
  description : String
  type : String
  criteria : List (String × String)
  hint : String
  success_message : String
deriving DecidableEq

/-- Field bag for one quest as it appears in a parsed quest file. -/
structure QuestIn where
  id : String
  title : String
  description : String
  objectives : List ObjectiveIn
deriving DecidableEq

/-- `Objective.from_dict`: builds an `Objective` from parsed data; the
`completed` flag always starts `false`. -/
def Objective.from_dict (d : ObjectiveIn) : Objective :=
  { id := d.id
    description := d.description
    type := d.type
    criteria := d.criteria
    hint := d.hint
    success_message := d.success_message
    completed := false }

/-- `Quest.from_dict`: builds a `Quest` from parsed data; the `completed`
flag always starts `false`. -/
def Quest.from_dict (d : QuestIn) : Quest :=
  { id := d.id
    title := d.title
    description := d.description
    objectives := d.objectives.map Objective.from_dict
    completed := false }

/-- The module-level state of `quest_manager.py`: the ordered dict
`_quests` (keys are the quests' ids) and `_current_quest_id`. -/
structure GameState where
  quests : List Quest
  currentQuestId : Option String
deriving DecidableEq

/-- Insertion into the ordered dict `_quests` keyed by `quest.id`:
an existing key keeps its position and gets the new value, a new key is
appended. -/
def dictInsert (qs : List Quest) (q : Quest) : List Quest :=
  if qs.any (fun x => decide (x.id = q.id)) then
    qs.map (fun x => if x.id = q.id then q else x)
  else qs ++ [q]

/-- `quest_manager.load_quests`, at the data level: each parsed quest file
yields a `QuestIn`; the quests are inserted in order into the ordered dict
and `_current_quest_id` is set to the first key when any quest loaded. -/
def load_quests (ds : List QuestIn) : GameState :=
  let qs := ds.foldl (fun acc d => dictInsert acc (Quest.from_dict d)) []
  { quests := qs
    currentQuestId := qs.head?.map (fun q => q.id) }

/-- The id `get_current_quest` will look up: `if _current_quest_id:` is
Python truthiness, so an empty-string id behaves like `None`. -/
def currentQid (s : GameState) : Option String :=
  match s.currentQuestId with
  | none => none
  | some qid => if qid = "" then none else some qid

/-- `quest_manager.get_current_quest`. -/
def get_current_quest (s : GameState) : Option Quest :=
  match currentQid s with
  | none => none
  | some qid => s.quests.find? (fun q => decide (q.id = qid))

/-- `quest_manager.get_active_objective`: the first non-completed objective
of the current quest. -/
def get_active_objective (s : GameState) : Option Objective :=
  match get_current_quest s with
  | none => none
  | some q => q.objectives.find? (fun o => decide (o.completed = false))

/-- The in-place mutation `obj.completed = True` performed by
`mark_objective_complete` on the first objective whose id matches. -/
def markFirst : List Objective → String → List Objective
  | [], _ => []
  | o :: rest, oid =>
    if o.id = oid then { o with completed := true } :: rest
    else o :: markFirst rest oid

/-- Replaces the first quest whose id is `k` by its image under `f`;
models in-place mutation of the object returned by a dict lookup. -/
def updateFirstQ : List Quest → String → (Quest → Quest) → List Quest
  | [], _, _ => []
  | q :: rest, k, f =>
    if q.id = k then f q :: rest
    else q :: updateFirstQ rest k f

/-- `quest_manager.mark_objective_complete`. -/
def mark_objective_complete (s : GameState) (oid : String) : GameState :=
  match get_current_quest s with
  | none => s
  | some q =>
    { s with
      quests := updateFirstQ s.quests q.id
        (fun x => { x with objectives := markFirst x.objectives oid }) }

/-- First index of a string in a list, modelling `list.index` wrapped in
`try/except ValueError`. -/
def idxOfStr (l : List String) (x : String) : Option Nat :=
  l.findIdx? (fun y => decide (y = x))

/-- The quest-transition narration emitted by `advance_quest`. -/
def transitionText (doneTitle newTitle newDescription : String) : String :=
  "Quest Complete: [bold]" ++ doneTitle ++ "[/bold]\n\nNew Quest: [bold]"
    ++ newTitle ++ "[/bold]\n" ++ newDescription

/-- The final narration emitted by `advance_quest` when no quest remains. -/
def systemStableText : String :=
  "Signal... strong. You... did it. All objectives complete. I am... stable. Thank you, operator."

/-- `quest_manager.advance_quest`: marks the current quest completed and
moves `_current_quest_id` to the next key in insertion order, or to `None`
after the last quest.  The second component collects the `cypher.say`
outputs. -/
def advance_quest (s : GameState) : GameState × List String :=
  match get_current_quest s with
  | none => (s, [])
  | some cq =>
    let quests1 := updateFirstQ s.quests cq.id (fun x => { x with completed := true })
    let ids := quests1.map (fun q => q.id)
    match idxOfStr ids cq.id with
    | none => ({ quests := quests1, currentQuestId := none }, [])
    | some i =>
      match (ids.drop (i + 1)).head? with
      | some nqid =>
        let nq := quests1.find? (fun q => decide (q.id = nqid))
        ({ quests := quests1, currentQuestId := some nqid },
         [transitionText cq.title ((nq.map (fun q => q.title)).getD "")
            ((nq.map (fun q => q.description)).getD "")])
      | none =>
        ({ quests := quests1, currentQuestId := none }, [systemStableText])

/-- `objective_checker._check_command_run`: compares the first
whitespace-delimited token of the executed command, lower-cased, against
`criteria['command']`.  `command.strip().split()[0]` raises `IndexError`
on a whitespace-only command, modelled by `Except.error`. -/
def check_command_run (o : Objective) (r : CommandResult) : Except Unit Bool :=
  match (pyTokens r.command).head? with
  | none => Except.error ()
  | some tok =>
    match getCrit o.criteria "command" with
    | none => Except.ok false
    | some e => Except.ok (decide (String.mk (tok.map Char.toLower) = e))

/-- `objective_checker._check_path_exists`: expands the user shorthand in
`criteria['path']` and tests the filesystem according to
`criteria['type']`, which must be the token `dir` or `file`. -/
def check_path_exists (env : Env) (o : Objective) : Bool :=
  match getCrit o.criteria "path" with
  | none => false
  | some p =>
    if p = "" then false
    else
      let full := expanduser env.home p
      if getCrit o.criteria "type" = some "dir" then decide (env.fs full = PathKind.dir)
      else if getCrit o.criteria "type" = some "file" then decide (env.fs full = PathKind.file)
      else false

/-- The dispatch block of `objective_checker.check`: routes the active
objective to the checker matching its `type`; an unknown type leaves
`is_complete` at `False`. -/
def dispatchObjective (env : Env) (o : Objective) (r : CommandResult) : Except Unit Bool :=
  if o.type = "command_run" then check_command_run o r
  else if o.type = "path_exists" then Except.ok (check_path_exists env o)
  else Except.ok false

/-- `objective_checker._handle_objective_success`: marks the objective
complete, emits its success message, and advances the quest when no
uncompleted objective remains. -/
def handleObjectiveSuccess (s : GameState) (o : Objective) : GameState × List String :=
  let s1 := mark_objective_complete s o.id
  match get_active_objective s1 with
  | none =>
    let p := advance_quest s1
    (p.fst, o.success_message :: p.snd)
  | some _ => (s1, [o.success_message])

/-- `objective_checker.check`, the observe operation: no active objective
or a failed command is a no-op; otherwise the active objective is
dispatched, any exception is caught (`except Exception`) and treated as
not complete, and success is handled. -/
def check (env : Env) (s : GameState) (r : CommandResult) : GameState × List String :=
  match get_active_objective s with
  | none => (s, [])
  | some activeObj =>
    if r.return_code ≠ 0 then (s, [])
    else
      match dispatchObjective env activeObj r with
      | Except.error _ => (s, [])
      | Except.ok false => (s, [])
      | Except.ok true => handleObjectiveSuccess s activeObj

/-- Iterated observation: one `check` per executed command, each with the
ambient system state at that moment. -/
def observeAll (steps : List (Env × CommandResult)) (s : GameState) : GameState :=
  steps.foldl (fun st p => (check p.fst st p.snd).fst) s

/-- States reachable from loading a catalog by any sequence of observe
calls (the environment may change between commands). -/
inductive Reachable : GameState → Prop
  | load (ds : List QuestIn) : Reachable (load_quests ds)
  | step (s : GameState) (env : Env) (r : CommandResult) :
      Reachable s → Reachable ((check env s r).fst)

end Game

namespace Audit

/-- Outcome of `os.stat` on a path: found (with its `st_mode` and
`st_uid`), `FileNotFoundError`, or some other `OSError` (such as a
permission error). -/
inductive StatResult where
  | found (mode : Nat) (uid : Nat)
  | missingFile
  | statError
deriving DecidableEq

/-- Outcome of the `subprocess.run(['ip', 'route', 'show'], ..., check=True)`
query in `check_network_route`: captured stdout on success,
`CalledProcessError` on a nonzero exit, or some other exception (for
example `FileNotFoundError` when the `ip` executable is absent). -/
inductive RouteQueryResult where
  | ok (stdout : String)
  | nonzeroExit
  | execError
deriving DecidableEq

/-- Ambient system state the auditors consult. -/
structure SysEnv where
  stat : String → StatResult
  uidName : Nat → Option String
  routeQuery : RouteQueryResult

/-- One octal digit as a character. -/
def octChar (n : Nat) : Char := Char.ofNat (48 + n % 8)

/-- Model of Python's `oct` on the range of `stat.S_IMODE` values
(below `0o10000`): the literal `0o` followed by the octal digits without
leading zeros, `oct(0)` being `0o0`. -/
def pyOct (n : Nat) : String :=
  if n < 8 then String.mk ['0', 'o', octChar n]
  else if n < 64 then String.mk ['0', 'o', octChar (n / 8), octChar (n % 8)]
  else if n < 512 then
    String.mk ['0', 'o', octChar (n / 64), octChar (n / 8 % 8), octChar (n % 8)]
  else if n < 4096 then
    String.mk ['0', 'o', octChar (n / 512), octChar (n / 64 % 8), octChar (n / 8 % 8),
      octChar (n % 8)]
  else ""

/-- Model of the Python slice `s[-k:]`: the last `k` characters (the whole
string when it is shorter). -/
def strTakeRight (s : String) (k : Nat) : String :=
  String.mk (s.data.drop (s.data.length - k))

/-- `auditors.check_permissions`: isolates the permission bits with
`stat.S_IMODE` (the low twelve bits of `st_mode`), renders them with
`oct(...)[-4:]`, and compares the last three characters of that against
`expected_octal`.  A missing path and any other error are caught and give
`False`. -/
def check_permissions (env : SysEnv) (filepath expected_octal : String) : Bool :=
  match env.stat filepath with
  | StatResult.found mode _ =>
    decide (strTakeRight (strTakeRight (pyOct (mode % 4096)) 4) 3 = expected_octal)
  | StatResult.missingFile => false
  | StatResult.statError => false

/-- `auditors.check_owner_user`: resolves the owner's account name from the
file's uid.  `FileNotFoundError` and `KeyError` are caught and give
`False`; any other `os.stat` failure propagates. -/
def check_owner_user (env : SysEnv) (filepath expected_owner_name : String) :
    Except Unit Bool :=
  match env.stat filepath with
  | StatResult.found _ uid =>
    match env.uidName uid with
    | none => Except.ok false
    | some name => Except.ok (decide (name = expected_owner_name))
  | StatResult.missingFile => Except.ok false
  | StatResult.statError => Except.error ()

/-- `auditors.check_network_route`: runs the route query and tests whether
`target_ip` and `"dev " + required_interface` each occur somewhere in its
output.  Only `CalledProcessError` is caught (giving `False`); any other
failure of the query propagates. -/
def check_network_route (env : SysEnv) (target_ip required_interface : String) :
    Except Unit Bool :=
  match env.routeQuery with
  | RouteQueryResult.ok out =>
    Except.ok (containsStr out target_ip && containsStr out ("dev " ++ required_interface))
  | RouteQueryResult.nonzeroExit => Except.ok false
  | RouteQueryResult.execError => Except.error ()

/-- The keys of the `AUDIT_FUNCTIONS` registry in `auditors.py`. -/
def AUDIT_FUNCTION_NAMES : List String :=
  ["check_permissions", "check_owner_user", "check_network_route"]

/-- One declarative check from `config/quests.json`: the audit function's
name, its keyword-argument dict, the expected value and the failure
feedback. -/
structure CheckSpec where
  function : String
  args : List (String × String)
  expected : Bool
  feedback : String
deriving DecidableEq

/-- Looks a keyword argument up in an argument dict. -/
def argVal (args : List (String × String)) (k : String) : Option String :=
  (args.find? (fun kv => decide (kv.fst = k))).map (fun kv => kv.snd)

/-- Whether a keyword-argument dict binds exactly the parameter names `ks`;
a mismatch makes the `f(**args)` call raise `TypeError`. -/
def keysMatch (args : List (String × String)) (ks : List String) : Bool :=
  args.all (fun kv => ks.contains kv.fst) && ks.all (fun k => (argVal args k).isSome)

/-- The call `check_function(**args)` performed by `Quest.is_complete` and
`Quest.get_prerequisites_met`: dispatches on the registered function and
binds its keyword arguments; a name outside the registry or an argument
mismatch raises. -/
def callAudit (env : SysEnv) (fname : String) (args : List (String × String)) :
    Except Unit Bool :=
  if fname = "check_permissions" then
    if keysMatch args ["filepath", "expected_octal"] then
      match argVal args "filepath", argVal args "expected_octal" with
      | some fp, some eo => Except.ok (check_permissions env fp eo)
      | _, _ => Except.error ()
    else Except.error ()
  else if fname = "check_owner_user" then
    if keysMatch args ["filepath", "expected_owner_name"] then
      match argVal args "filepath", argVal args "expected_owner_name" with
      | some fp, some eon => check_owner_user env fp eon
      | _, _ => Except.error ()
    else Except.error ()
  else if fname = "check_network_route" then
    if keysMatch args ["target_ip", "required_interface"] then
      match argVal args "target_ip", argVal args "required_interface" with
      | some t, some i => check_network_route env t i
      | _, _ => Except.error ()
    else Except.error ()
  else Except.error ()

/-- `Quest._parse_checks` (`supershell/quest.py`): rejects the first check
whose `function` is not a key of `AUDIT_FUNCTIONS` with a `ValueError`
carrying the unknown name; otherwise keeps the checks in order. -/
def parseChecks : List CheckSpec → Except String (List CheckSpec)
  | [] => Except.ok []
  | c :: rest =>
    if c.function ∈ AUDIT_FUNCTION_NAMES then
      match parseChecks rest with
      | Except.ok cs => Except.ok (c :: cs)
      | Except.error e => Except.error e
    else Except.error c.function

/-- The raw dictionary a quest is built from (one entry of the `quests`
array of `config/quests.json`), with the `.get("prerequisite_checks", [])`
default already applied. -/
structure QuestData where
  quest_id : String
  objective : String
  prerequisite_checks : List CheckSpec
  completion_checks : List CheckSpec
deriving DecidableEq

/-- The gated quest (`supershell/quest.py`, class `Quest`). -/
structure Quest where
  quest_id : String
  objective : String
  prerequisite_checks : List CheckSpec
  completion_checks : List CheckSpec
deriving DecidableEq

/-- `Quest.__init__`: parses both check lists, raising `ValueError` out of
the constructor when either contains an unknown function name. -/
def Quest.ofData (qd : QuestData) : Except String Quest :=
  match parseChecks qd.prerequisite_checks with
  | Except.error e => Except.error e
  | Except.ok pc =>
    match parseChecks qd.completion_checks with
    | Except.error e => Except.error e
    | Except.ok cc =>
      Except.ok
        { quest_id := qd.quest_id
          objective := qd.objective
          prerequisite_checks := pc
          completion_checks := cc }

/-- The success narration returned by `Quest.is_complete` once every
completion check matches. -/
def missionText (qid : String) : String :=
  "Mission " ++ qid ++ " Complete! System Secured."

/-- The loop body of `Quest.is_complete`: evaluates the checks in order,
returning the first mismatching check's feedback; an exception a checker
does not handle itself propagates. -/
def runChecks (env : SysEnv) (qid : String) : List CheckSpec → Except Unit (Bool × String)
  | [] => Except.ok (true, missionText qid)
  | c :: rest =>
    match callAudit env c.function c.args with
    | Except.error e => Except.error e
    | Except.ok v =>
      if v ≠ c.expected then Except.ok (false, c.feedback)
      else runChecks env qid rest

/-- `Quest.is_complete`. -/
def is_complete (env : SysEnv) (q : Quest) : Except Unit (Bool × String) :=
  runChecks env q.quest_id q.completion_checks

/-- The loop body of `Quest.get_prerequisites_met`. -/
def runPrereqs (env : SysEnv) : List CheckSpec → Except Unit (Bool × String)
  | [] => Except.ok (true, "")
  | c :: rest =>
    match callAudit env c.function c.args with
    | Except.error e => Except.error e
    | Except.ok v =>
      if v ≠ c.expected then Except.ok (false, c.feedback)
      else runPrereqs env rest

/-- `Quest.get_prerequisites_met`. -/
def get_prerequisites_met (env : SysEnv) (q : Quest) : Except Unit (Bool × String) :=
  runPrereqs env q.prerequisite_checks

/-- Dict insertion for the `quest_instances` dict of `main.initialize_game`,
keyed by `quest_id`. -/
def insertInstance (m : List (String × Quest)) (q : Quest) : List (String × Quest) :=
  if m.any (fun kv => decide (kv.fst = q.quest_id)) then
    m.map (fun kv => if kv.fst = q.quest_id then (q.quest_id, q) else kv)
  else m ++ [(q.quest_id, q)]

/-- The quest-construction loop of `main.initialize_game`, carried out
left to right over the configured quests with the dict built so far as
accumulator; the first `ValueError` aborts with that error. -/
def buildQuestsAux (acc : List (String × Quest)) :
    List QuestData → Except String (List (String × Quest))
  | [] => Except.ok acc
  | qd :: rest =>
    match Quest.ofData qd with
    | Except.error e => Except.error e
    | Except.ok q => buildQuestsAux (insertInstance acc q) rest

/-- The quest-construction loop of `main.initialize_game`. -/
def buildQuests (qds : List QuestData) : Except String (List (String × Quest)) :=
  buildQuestsAux [] qds

/-- Models `main.initialize_game` at the data level: on any `ValueError`
during quest construction it prints a fatal message and returns without
starting the `AgentGuide`, so the game state stays uninitialized
(`none`); otherwise the guide starts with the loaded instances. -/
def initGame (qds : List QuestData) : Option (List (String × Quest)) :=
  match buildQuests qds with
  | Except.error _ => none
  | Except.ok m => some m

end Audit

/-! ### Specification-side definitions

These definitions follow the words of the specification (not the code) and
are used to compare the code's behaviour against it. -/

/-- The exact three-digit octal rendering of a permission-bit value, as the
specification describes: the user, group and other digits. -/
def octal3 (m : Nat) : String :=
  String.mk [Audit.octChar (m / 64 % 8), Audit.octChar (m / 8 % 8), Audit.octChar (m % 8)]

/-- Whether a character is an octal digit. -/
def isOctDigitChar (c : Char) : Bool :=
  decide (48 ≤ c.toNat) && decide (c.toNat ≤ 55)

/-- Whether a string is a three-digit octal string, the shape of the
`expected_octal` argument the specification talks about. -/
def isOctal3 (s : String) : Bool :=
  match s.data with
  | [a, b, c] => isOctDigitChar a && isOctDigitChar b && isOctDigitChar c
  | _ => false

/-- The lines of a character sequence, split at newline characters. -/
def splitLines : List Char → List (List Char)
  | [] => [[]]
  | c :: rest =>
    if c = '\n' then [] :: splitLines rest
    else
      match splitLines rest with
      | [] => [[c]]
      | h :: t => (c :: h) :: t

/-- Modelled from the spec: "a route to `target` via `interface` is present
in the active routing table" — some single line of the routing-table output
mentions both the target and `dev <interface>`. -/
def routePresentSpec (stdout target interface : String) : Bool :=
  (splitLines stdout.data).any
    (fun line => containsSub target.data line && containsSub ("dev " ++ interface).data line)

namespace Game

/-- One observe step never changes an objective beyond possibly setting its
`completed` flag. -/
def ObjMono (o o' : Objective) : Prop :=
  o' = o ∨ o' = { o with completed := true }

/-- One observe step never changes a quest beyond marking objectives and
the quest itself completed. -/
def QuestMono (q q' : Quest) : Prop :=
  List.Forall₂ ObjMono q.objectives q'.objectives ∧ (q.completed = true → q'.completed = true)

/-- The completion invariant of the sequential model, for quests with at
least one objective. -/
def Inv (s : GameState) : Prop :=
  ∀ q ∈ s.quests, q.objectives ≠ [] →
    (q.completed = true ↔ ∀ o ∈ q.objectives, o.completed = true)

end Game

/-! ### Concrete instances used in the closed theorems -/

namespace Game

/-- A `command_run ls` objective. -/
def objLsIn (oid msg : String) : ObjectiveIn :=
  { id := oid
    description := "Run the ls command."
    type := "command_run"
    criteria := [("command", "ls")]
    hint := "Try ls."
    success_message := msg }

/-- A quest whose two objectives are both satisfied by running `ls`. -/
def qdTwoLs : QuestIn :=
  { id := "questA"
    title := "Quest A"
    description := "Two listing tasks."
    objectives := [objLsIn "o1" "first done", objLsIn "o2" "second done"] }

/-- A quest configured with an empty objectives list. -/
def qdGhost : QuestIn :=
  { id := "ghost"
    title := "Ghost"
    description := "No objectives."
    objectives := [] }

/-- An environment in which no path exists. -/
def envTrivial : Env := { home := "/root", fs := fun _ => PathKind.absent }

/-- A successful `ls` command outcome. -/
def rLs : CommandResult := { command := "ls -la", stdout := "x", stderr := "", return_code := 0 }

/-- A failed command outcome. -/
def rFail : CommandResult :=
  { command := "ls /missing", stdout := "", stderr := "no such file", return_code := 2 }

/-- A whitespace-only command outcome with exit status zero, on which
`command.strip().split()[0]` raises `IndexError`. -/
def rBlank : CommandResult := { command := "   ", stdout := "", stderr := "", return_code := 0 }

/-- An environment in which the home-relative directory `safehouse`
exists. -/
def envSafehouse : Env :=
  { home := "/home/u"
    fs := fun p => if p = "/home/u/safehouse" then PathKind.dir else PathKind.absent }

/-- A `path_exists` objective whose `type` criterion is the word
`directory`. -/
def objSafehouseDirectory : Objective :=
  { id := "od"
    description := "Create the safehouse."
    type := "path_exists"
    criteria := [("path", "~/safehouse"), ("type", "directory")]
    hint := "mkdir"
    success_message := "safehouse ready"
    completed := false }

end Game

namespace Audit

/-- A completion check calling the network-route auditor. -/
def chkRoute : CheckSpec :=
  { function := "check_network_route"
    args := [("target_ip", "10.0.0.1"), ("required_interface", "eth0")]
    expected := true
    feedback := "No route to the target yet." }

/-- A quest configuration whose single completion check is `chkRoute`. -/
def qdNet : QuestData :=
  { quest_id := "L4Q1_ROUTE"
    objective := "Bring up the route."
    prerequisite_checks := []
    completion_checks := [chkRoute] }

/-- The quest `qdNet` constructs. -/
def qNet : Quest :=
  { quest_id := "L4Q1_ROUTE"
    objective := "Bring up the route."
    prerequisite_checks := []
    completion_checks := [chkRoute] }

/-- A system state in which the route query itself cannot run (for
example, the `ip` executable is absent). -/
def envExecFail : SysEnv :=
  { stat := fun _ => StatResult.missingFile
    uidName := fun _ => none
    routeQuery := RouteQueryResult.execError }

/-- A routing table with a route to `10.0.0.0` via `eth0` and a route to
`192.168.1.0` via `wlan0`, but no route to `10.0.0.0` via `wlan0`. -/
def routeTable : String :=
  "10.0.0.0/24 dev eth0 proto kernel\n192.168.1.0/24 dev wlan0 proto kernel"

/-- A system state whose route query returns `routeTable`. -/
def envRouteTbl : SysEnv :=
  { stat := fun _ => StatResult.missingFile
    uidName := fun _ => none
    routeQuery := RouteQueryResult.ok routeTable }

/-- A system state in which `/var/log/access.log` has permission bits
`0o077`. -/
def envPerm63 : SysEnv :=
  { stat := fun p => if p = "/var/log/access.log" then StatResult.found 63 0
      else StatResult.missingFile
    uidName := fun _ => none
    routeQuery := RouteQueryResult.nonzeroExit }

/-- A system state in which `/home/student/game_world/access.log` has
permission bits `0o600`. -/
def envPerm600 : SysEnv :=
  { stat := fun p => if p = "/home/student/game_world/access.log" then StatResult.found 384 0
      else StatResult.missingFile
    uidName := fun _ => none
    routeQuery := RouteQueryResult.nonzeroExit }

/-- A completion check requiring the log file to have mode `600`. -/
def chkPerm600 : CheckSpec :=
  { function := "check_permissions"
    args := [("filepath", "/home/student/game_world/access.log"), ("expected_octal", "600")]
    expected := true
    feedback := "The log file is not locked down." }

/-- A quest whose single completion check is `chkPerm600`. -/
def qSecureLogs : Quest :=
  { quest_id := "L3Q1_SECURE_LOGS"
    objective := "Secure the log file."
    prerequisite_checks := []
    completion_checks := [chkPerm600] }

/-- A check naming an unregistered audit function. -/
def chkUnknown : CheckSpec :=
  { function := "check_quota"
    args := [("filepath", "/tmp/x")]
    expected := true
    feedback := "quota" }

/-- A quest configuration containing `chkUnknown`. -/
def qdUnknownFn : QuestData :=
  { quest_id := "L9Q9_BROKEN"
    objective := "Impossible."
    prerequisite_checks := []
    completion_checks := [chkUnknown] }

end Audit

/-! ### List helper lemmas -/

namespace Game

theorem fa2_refl {α : Type} {R : α → α → Prop} (h : ∀ x, R x x) :
    ∀ l : List α, List.Forall₂ R l l
  | [] => List.Forall₂.nil
  | _ :: t => List.Forall₂.cons (h _) (fa2_refl h t)

theorem fa2_trans {α : Type} {R : α → α → Prop} (ht : ∀ a b c, R a b → R b c → R a c) :
    ∀ {l₁ l₂ l₃ : List α}, List.Forall₂ R l₁ l₂ → List.Forall₂ R l₂ l₃ →
      List.Forall₂ R l₁ l₃ := by
  intro l₁ l₂ l₃ h12 h23
  induction h12 generalizing l₃ with
  | nil => cases h23; exact List.Forall₂.nil
  | cons hab _ ih =>
    cases h23 with
    | cons hbc h23' => exact List.Forall₂.cons (ht _ _ _ hab hbc) (ih h23')

theorem fa2_mem_right {α : Type} {R : α → α → Prop} {l₁ l₂ : List α} {x : α}
    (h : List.Forall₂ R l₁ l₂) (hx : x ∈ l₂) : ∃ y, y ∈ l₁ ∧ R y x := by
  induction h with
  | nil => cases hx
  | cons hr _ ih =>
    rcases List.mem_cons.mp hx with rfl | hx'
    · exact ⟨_, List.mem_cons_self _ _, hr⟩
    · rcases ih hx' with ⟨y, hy, hRy⟩
      exact ⟨y, List.mem_cons_of_mem _ hy, hRy⟩

/-- Replacing the first id-match keeps every quest or substitutes `f` at
the matched position. -/
theorem fa2_updateFirstQ (k : String) (f : Quest → Quest) :
    ∀ qs : List Quest,
      List.Forall₂ (fun x x' => x' = x ∨ x' = f x) qs (updateFirstQ qs k f) := by
  intro qs
  induction qs with
  | nil => exact List.Forall₂.nil
  | cons y rest ih =>
    by_cases h : y.id = k
    · simp only [updateFirstQ, if_pos h]
      exact List.Forall₂.cons (Or.inr rfl)
        (fa2_refl (R := fun x x' => x' = x ∨ x' = f x) (fun x => Or.inl rfl) rest)
    · simp only [updateFirstQ, if_neg h]
      exact List.Forall₂.cons (Or.inl rfl) ih

theorem mem_updateFirstQ {k : String} {f : Quest → Quest} :
    ∀ {qs : List Quest} {q : Quest},
      qs.find? (fun x => decide (x.id = k)) = some q →
      ∀ x ∈ updateFirstQ qs k f, x ∈ qs ∨ x = f q := by
  intro qs
  induction qs with
  | nil => intro q h; simp [List.find?] at h
  | cons y rest ih =>
    intro q hfind x hx
    by_cases h : y.id = k
    · rw [List.find?_cons_of_pos _ (by simpa using h)] at hfind
      injection hfind with hq
      subst hq
      simp only [updateFirstQ, if_pos h] at hx
      rcases List.mem_cons.mp hx with rfl | hx'
      · exact Or.inr rfl
      · exact Or.inl (List.mem_cons_of_mem _ hx')
    · rw [List.find?_cons_of_neg _ (by simpa using h)] at hfind
      simp only [updateFirstQ, if_neg h] at hx
      rcases List.mem_cons.mp hx with rfl | hx'
      · exact Or.inl (List.mem_cons_self _ _)
      · rcases ih hfind x hx' with hmem | hfx
        · exact Or.inl (List.mem_cons_of_mem _ hmem)
        · exact Or.inr hfx

theorem mem_updateTwiceQ {k : String} {f g : Quest → Quest}
    (hid : ∀ x, (f x).id = x.id) :
    ∀ {qs : List Quest} {q : Quest},
      qs.find? (fun x => decide (x.id = k)) = some q →
      ∀ x ∈ updateFirstQ (updateFirstQ qs k f) k g, x ∈ qs ∨ x = g (f q) := by
  intro qs
  induction qs with
  | nil => intro q h; simp [List.find?] at h
  | cons y rest ih =>
    intro q hfind x hx
    by_cases h : y.id = k
    · rw [List.find?_cons_of_pos _ (by simpa using h)] at hfind
      injection hfind with hq
      subst hq
      simp only [updateFirstQ, if_pos h] at hx
      simp only [updateFirstQ, if_pos ((hid y).trans h)] at hx
      rcases List.mem_cons.mp hx with rfl | hx'
      · exact Or.inr rfl
      · exact Or.inl (List.mem_cons_of_mem _ hx')
    · rw [List.find?_cons_of_neg _ (by simpa using h)] at hfind
      simp only [updateFirstQ, if_neg h] at hx
      rcases List.mem_cons.mp hx with rfl | hx'
      · exact Or.inl (List.mem_cons_self _ _)
      · rcases ih hfind x hx' with hmem | hfx
        · exact Or.inl (List.mem_cons_of_mem _ hmem)
        · exact Or.inr hfx

theorem find_updateFirstQ {k : String} {f : Quest → Quest}
    (hid : ∀ x, (f x).id = x.id) :
    ∀ {qs : List Quest} {q : Quest},
      qs.find? (fun x => decide (x.id = k)) = some q →
      (updateFirstQ qs k f).find? (fun x => decide (x.id = k)) = some (f q) := by
  intro qs
  induction qs with
  | nil => intro q h; simp [List.find?] at h
  | cons y rest ih =>
    intro q hfind
    by_cases h : y.id = k
    · rw [List.find?_cons_of_pos _ (by simpa using h)] at hfind
      injection hfind with hq
      subst hq
      simp only [updateFirstQ, if_pos h]
      exact List.find?_cons_of_pos _ (by simpa using (hid y).trans h)
    · rw [List.find?_cons_of_neg _ (by simpa using h)] at hfind
      simp only [updateFirstQ, if_neg h]
      rw [List.find?_cons_of_neg _ (by simpa using h)]
      exact ih hfind

end Game

/-! ### Basic behaviour of the observe operation -/

namespace Game

theorem check_of_active_none {env : Env} {s : GameState} {r : CommandResult}
    (h : get_active_objective s = none) : check env s r = (s, []) := by
  simp [check, h]

/-- C4: with a non-zero exit status, `objective_checker.check` returns
before evaluating anything — the state is unchanged and nothing is
emitted, for every quest/objective state. -/
theorem observe_failed_command_no_op (env : Env) (s : GameState) (r : CommandResult)
    (h : r.return_code ≠ 0) : check env s r = (s, []) := by
  unfold check
  cases hao : get_active_objective s with
  | none => rfl
  | some o => simp [h]

/-- Witness for `observe_failed_command_no_op` at a concrete failed `ls`. -/
theorem observe_failed_command_no_op_witness :
    check envTrivial (load_quests [qdTwoLs]) rFail = (load_quests [qdTwoLs], []) :=
  observe_failed_command_no_op envTrivial (load_quests [qdTwoLs]) rFail (by decide)

/-- C10: a quest with an empty objectives list that is the current quest
yields no active objective, and no sequence of observe calls changes the
state, so the quest stays uncompleted and active forever. -/
theorem empty_quest_stuck (s : GameState) (q : Quest)
    (hq : get_current_quest s = some q) (hobj : q.objectives = []) :
    get_active_objective s = none ∧
    (∀ steps, observeAll steps s = s) ∧
    (∀ steps, get_current_quest (observeAll steps s) = some q) := by
  have hao : get_active_objective s = none := by
    simp [get_active_objective, hq, hobj]
  have hfix : ∀ steps, observeAll steps s = s := by
    intro steps
    induction steps with
    | nil => rfl
    | cons p rest ih =>
      have h1 : (check p.fst s p.snd).fst = s := by rw [check_of_active_none hao]
      simp only [observeAll, List.foldl_cons] at ih ⊢
      rw [h1]
      exact ih
  exact ⟨hao, hfix, fun steps => by rw [hfix steps]; exact hq⟩

/-- Witness for `empty_quest_stuck` on a loaded one-quest catalog and two
observed commands. -/
theorem empty_quest_stuck_witness :
    get_active_objective (load_quests [qdGhost]) = none ∧
    observeAll [(envTrivial, rLs), (envTrivial, rFail)] (load_quests [qdGhost]) =
      load_quests [qdGhost] :=
  ⟨(empty_quest_stuck (load_quests [qdGhost]) (Quest.from_dict qdGhost)
      (by decide) rfl).1,
   (empty_quest_stuck (load_quests [qdGhost]) (Quest.from_dict qdGhost)
      (by decide) rfl).2.1 [(envTrivial, rLs), (envTrivial, rFail)]⟩

/-- C1 counterexample: in the state reached by loading a catalog whose
quest has an empty objectives list, every objective of the active quest is
(vacuously) completed, yet the quest's `completed` flag is `false` — the
biconditional of the claim fails for empty quests. -/
theorem quest_completed_iff_cex :
    get_current_quest (load_quests [qdGhost]) = some (Quest.from_dict qdGhost) ∧
    (∀ o ∈ (Quest.from_dict qdGhost).objectives, o.completed = true) ∧
    (Quest.from_dict qdGhost).completed = false := by
  refine ⟨by decide, ?_, rfl⟩
  intro o ho
  simp [Quest.from_dict, qdGhost] at ho

/-- C5 counterexample: after a successful `ls` completes the first
objective, observing the very same successful command again is not a
no-op — it completes the next objective and changes the state. -/
theorem observe_rerun_cex :
    ((check envTrivial (load_quests [qdTwoLs]) rLs).fst.quests.map
        (fun q => q.objectives.map (fun o => o.completed))) = [[true, false]] ∧
    (check envTrivial (check envTrivial (load_quests [qdTwoLs]) rLs).fst rLs).fst ≠
      (check envTrivial (load_quests [qdTwoLs]) rLs).fst := by
  exact ⟨by decide, by decide⟩

/-- C7 counterexample: with `expected_kind` given as the word `directory`,
`_check_path_exists` returns `false` even though the expanded path exists
and is a directory — the code only recognises the token `dir`. -/
theorem path_exists_directory_cex :
    check_path_exists envSafehouse objSafehouseDirectory = false ∧
    envSafehouse.fs (expanduser envSafehouse.home "~/safehouse") = PathKind.dir := by
  exact ⟨by decide, by decide⟩

end Game

namespace Audit

/-- C8 counterexample: a file with permission bits `0o077` formats to the
three-digit octal string `077`, but `check_permissions` compares the slice
`o77` of Python's `oct` output and returns `false` against the expected
string `077`. -/
theorem permission_format_cex :
    octal3 63 = "077" ∧ isOctal3 "077" = true ∧
    check_permissions envPerm63 "/var/log/access.log" "077" = false := by
  exact ⟨by decide, by decide, by decide⟩

/-- C9 counterexample: when the route query itself fails to execute,
`check_network_route` raises instead of returning `false`; and on a good
query it returns `true` for a target and interface that only appear in
different routes of the table. -/
theorem network_route_cex :
    check_network_route envExecFail "10.0.0.1" "eth0" = Except.error () ∧
    check_network_route envRouteTbl "10.0.0.0" "wlan0" = Except.ok true ∧
    routePresentSpec routeTable "10.0.0.0" "wlan0" = false := by
  exact ⟨rfl, rfl, by decide⟩

/-- C2 counterexample: a loadable quest whose completion check is the
network-route auditor propagates the query failure out of
`Quest.is_complete` to the caller instead of treating it as not satisfied. -/
theorem eval_exception_cex :
    Quest.ofData qdNet = Except.ok qNet ∧
    is_complete envExecFail qNet = Except.error () := by
  exact ⟨rfl, rfl⟩

end Audit

/-! ### The gated loader and evaluator -/

namespace Audit

theorem parseChecks_error_of_unregistered :
    ∀ {cl : List CheckSpec} {c : CheckSpec}, c ∈ cl →
      c.function ∉ AUDIT_FUNCTION_NAMES →
      ∃ e, parseChecks cl = Except.error e := by
  intro cl
  induction cl with
  | nil => intro c hc _; cases hc
  | cons c0 rest ih =>
    intro c hc hbad
    by_cases h0 : c0.function ∈ AUDIT_FUNCTION_NAMES
    · rcases List.mem_cons.mp hc with rfl | hc'
      · exact absurd h0 hbad
      · rcases ih hc' hbad with ⟨e, he⟩
        exact ⟨e, by simp [parseChecks, h0, he]⟩
    · exact ⟨c0.function, by simp [parseChecks, h0]⟩

theorem ofData_error_of_unregistered {qd : QuestData} {c : CheckSpec}
    (hc : c ∈ qd.prerequisite_checks ∨ c ∈ qd.completion_checks)
    (hbad : c.function ∉ AUDIT_FUNCTION_NAMES) :
    ∃ e, Quest.ofData qd = Except.error e := by
  rcases hc with hp | hcc
  · rcases parseChecks_error_of_unregistered hp hbad with ⟨e, he⟩
    exact ⟨e, by simp [Quest.ofData, he]⟩
  · cases hpp : parseChecks qd.prerequisite_checks with
    | error e => exact ⟨e, by simp [Quest.ofData, hpp]⟩
    | ok pc =>
      rcases parseChecks_error_of_unregistered hcc hbad with ⟨e, he⟩
      exact ⟨e, by simp [Quest.ofData, hpp, he]⟩

theorem buildQuestsAux_error :
    ∀ {qds : List QuestData} (acc : List (String × Quest)),
      (∃ qd ∈ qds, ∃ e, Quest.ofData qd = Except.error e) →
      ∃ e, buildQuestsAux acc qds = Except.error e := by
  intro qds
  induction qds with
  | nil =>
    intro acc h
    rcases h with ⟨qd, hmem, _⟩
    cases hmem
  | cons qd0 rest ih =>
    intro acc h
    cases hof : Quest.ofData qd0 with
    | error e => exact ⟨e, by simp [buildQuestsAux, hof]⟩
    | ok q =>
      rcases h with ⟨qd, hmem, e, he⟩
      rcases List.mem_cons.mp hmem with rfl | hmem'
      · rw [hof] at he; cases he
      · rcases ih (insertInstance acc q) ⟨qd, hmem', e, he⟩ with ⟨e', he'⟩
        exact ⟨e', by simp [buildQuestsAux, hof, he']⟩

/-- C3: a catalog in which any quest names a condition kind that is not a
key of `AUDIT_FUNCTIONS` makes quest construction raise, which
`initialize_game` treats as fatal: it aborts startup and never initializes
the game state, so the unknown kind is never reached at runtime. -/
theorem load_unknown_kind_fatal (qds : List QuestData)
    (h : ∃ qd ∈ qds, ∃ c, (c ∈ qd.prerequisite_checks ∨ c ∈ qd.completion_checks) ∧
          c.function ∉ AUDIT_FUNCTION_NAMES) :
    initGame qds = none := by
  rcases h with ⟨qd, hmem, c, hc, hbad⟩
  rcases ofData_error_of_unregistered hc hbad with ⟨e, he⟩
  rcases buildQuestsAux_error [] ⟨qd, hmem, e, he⟩ with ⟨e', he'⟩
  simp [initGame, buildQuests, he']

/-- Witness for `load_unknown_kind_fatal` on a one-quest catalog whose
completion check calls the unregistered function `check_quota`. -/
theorem load_unknown_kind_fatal_witness : initGame [qdUnknownFn] = none :=
  load_unknown_kind_fatal [qdUnknownFn]
    ⟨qdUnknownFn, by decide, chkUnknown, Or.inr (by decide), by decide⟩

theorem runChecks_total {env : SysEnv} {qid : String} :
    ∀ {cs : List CheckSpec},
      (∀ c ∈ cs, (callAudit env c.function c.args).isOk = true) →
      ∃ p, runChecks env qid cs = Except.ok p := by
  intro cs
  induction cs with
  | nil => intro _; exact ⟨(true, missionText qid), rfl⟩
  | cons c rest ih =>
    intro h
    have hc := h c (List.mem_cons_self _ _)
    cases hca : callAudit env c.function c.args with
    | error e => rw [hca] at hc; simp [Except.isOk, Except.toBool] at hc
    | ok v =>
      by_cases hv : v ≠ c.expected
      · exact ⟨(false, c.feedback), by simp [runChecks, hca, hv]⟩
      · rcases ih (fun c' hc' => h c' (List.mem_cons_of_mem _ hc')) with ⟨p, hp⟩
        exact ⟨p, by simp only [runChecks, hca]; rw [if_neg hv]; exact hp⟩

theorem runChecks_spec (env : SysEnv) (qid : String) :
    ∀ (cs : List CheckSpec),
      (∀ c ∈ cs, (callAudit env c.function c.args).isOk = true) →
      ((runChecks env qid cs = Except.ok (true, missionText qid) ↔
          ∀ c ∈ cs, callAudit env c.function c.args = Except.ok c.expected) ∧
       (∀ m, runChecks env qid cs = Except.ok (false, m) →
          ∃ pre c post, cs = pre ++ c :: post ∧
            (∀ c' ∈ pre, callAudit env c'.function c'.args = Except.ok c'.expected) ∧
            (∃ v, callAudit env c.function c.args = Except.ok v ∧ v ≠ c.expected) ∧
            m = c.feedback) ∧
       ((¬ ∀ c ∈ cs, callAudit env c.function c.args = Except.ok c.expected) →
          ∃ m, runChecks env qid cs = Except.ok (false, m))) := by
  intro cs
  induction cs with
  | nil =>
    intro _
    refine ⟨by simp [runChecks], ?_, ?_⟩
    · intro m hm
      simp [runChecks] at hm
    · intro hn
      exact absurd (by intro c hc; cases hc) hn
  | cons c rest ih =>
    intro htot
    have hc := htot c (List.mem_cons_self _ _)
    cases hca : callAudit env c.function c.args with
    | error e => rw [hca] at hc; simp [Except.isOk, Except.toBool] at hc
    | ok v =>
      have ihr := ih (fun c' hc' => htot c' (List.mem_cons_of_mem _ hc'))
      by_cases hv : v = c.expected
      · subst hv
        have heq : runChecks env qid (c :: rest) = runChecks env qid rest := by
          simp [runChecks, hca]
        refine ⟨?_, ?_, ?_⟩
        · rw [heq, ihr.1]
          constructor
          · intro hall c' hc'
            rcases List.mem_cons.mp hc' with rfl | hm'
            · exact hca
            · exact hall c' hm'
          · intro hall c' hc'
            exact hall c' (List.mem_cons_of_mem _ hc')
        · intro m hm
          rw [heq] at hm
          rcases ihr.2.1 m hm with ⟨pre, cx, post, hsplit, hpre, hfail, hfb⟩
          refine ⟨c :: pre, cx, post, by rw [hsplit, List.cons_append], ?_, hfail, hfb⟩
          intro c' hc'
          rcases List.mem_cons.mp hc' with rfl | hm'
          · exact hca
          · exact hpre c' hm'
        · intro hnall
          have hnr : ¬ ∀ c' ∈ rest, callAudit env c'.function c'.args = Except.ok c'.expected := by
            intro hall
            exact hnall (by
              intro c' hc'
              rcases List.mem_cons.mp hc' with rfl | hm'
              · exact hca
              · exact hall c' hm')
          rcases ihr.2.2 hnr with ⟨m, hm⟩
          exact ⟨m, by rw [heq]; exact hm⟩
      · have heq : runChecks env qid (c :: rest) = Except.ok (false, c.feedback) := by
          simp [runChecks, hca, hv]
        refine ⟨?_, ?_, ?_⟩
        · rw [heq]
          constructor
          · intro hm; cases hm
          · intro hall
            have := hall c (List.mem_cons_self _ _)
            rw [hca] at this
            exact absurd (Except.ok.inj this) hv
        · intro m hm
          rw [heq] at hm
          have hmfb : c.feedback = m := by
            have := Except.ok.inj hm
            exact congrArg Prod.snd this
          exact ⟨[], c, rest, rfl,
            fun c' hc' => absurd hc' (List.not_mem_nil c'), ⟨v, hca, hv⟩, hmfb.symm⟩
        · intro _
          exact ⟨c.feedback, heq⟩

/-- C6: when every completion check evaluates without raising,
`Quest.is_complete` returns the success pair exactly when all checks
match their expected values; otherwise the result is `(False, m)` where
`m` is the failure feedback of the first mismatching check in list
order. -/
theorem gated_is_complete_spec (env : SysEnv) (q : Quest)
    (htot : ∀ c ∈ q.completion_checks, (callAudit env c.function c.args).isOk = true) :
    (is_complete env q = Except.ok (true, missionText q.quest_id) ↔
      ∀ c ∈ q.completion_checks, callAudit env c.function c.args = Except.ok c.expected) ∧
    (∀ m, is_complete env q = Except.ok (false, m) →
      ∃ pre c post, q.completion_checks = pre ++ c :: post ∧
        (∀ c' ∈ pre, callAudit env c'.function c'.args = Except.ok c'.expected) ∧
        (∃ v, callAudit env c.function c.args = Except.ok v ∧ v ≠ c.expected) ∧
        m = c.feedback) ∧
    ((¬ ∀ c ∈ q.completion_checks, callAudit env c.function c.args = Except.ok c.expected) →
      ∃ m, is_complete env q = Except.ok (false, m)) :=
  runChecks_spec env q.quest_id q.completion_checks htot

/-- Witness for `gated_is_complete_spec`: the secure-logs quest completes
once the log file has mode `600`. -/
theorem gated_is_complete_spec_witness :
    is_complete envPerm600 qSecureLogs = Except.ok (true, missionText "L3Q1_SECURE_LOGS") :=
  (gated_is_complete_spec envPerm600 qSecureLogs (by decide)).1.mpr (by decide)

end Audit

/-! ### Substring and line lemmas -/

theorem listPrefixB_iff : ∀ {p l : List Char}, listPrefixB p l = true ↔ p <+: l := by
  intro p
  induction p with
  | nil => intro l; simp [listPrefixB, List.nil_prefix]
  | cons a as ih =>
    intro l
    cases l with
    | nil => simp [listPrefixB]
    | cons b bs => simp [listPrefixB, List.cons_prefix_cons, ih, and_comm]

theorem containsSub_iff : ∀ {p l : List Char}, containsSub p l = true ↔ p <:+: l := by
  intro p l
  induction l with
  | nil => simp [containsSub, List.infix_nil, List.isEmpty_iff]
  | cons c rest ih => simp [containsSub, listPrefixB_iff, ih, List.infix_cons_iff]

theorem splitLines_pieces : ∀ l : List Char,
    ∃ h t, splitLines l = h :: t ∧ h <+: l ∧ ∀ p ∈ t, p <:+: l := by
  intro l
  induction l with
  | nil => exact ⟨[], [], rfl, List.nil_prefix, fun p hp => absurd hp (List.not_mem_nil p)⟩
  | cons c rest ih =>
    rcases ih with ⟨h, t, heq, hpre, htail⟩
    by_cases hc : c = Char.ofNat 10
    · refine ⟨[], h :: t, ?_, List.nil_prefix, ?_⟩
      · simp [splitLines, hc, heq]
      · intro p hp
        rcases List.mem_cons.mp hp with rfl | hp'
        · exact hpre.isInfix.trans (List.suffix_cons c rest).isInfix
        · exact (htail p hp').trans (List.suffix_cons c rest).isInfix
    · refine ⟨c :: h, t, ?_, List.cons_prefix_cons.mpr ⟨rfl, hpre⟩, ?_⟩
      · simp [splitLines, hc, heq]
      · intro p hp
        exact (htail p hp).trans (List.suffix_cons c rest).isInfix

theorem splitLines_infix {l p : List Char} (hp : p ∈ splitLines l) : p <:+: l := by
  rcases splitLines_pieces l with ⟨h, t, heq, hpre, htail⟩
  rw [heq] at hp
  rcases List.mem_cons.mp hp with rfl | hp'
  · exact hpre.isInfix
  · exact htail p hp'

/-- If some single routing-table line mentions both strings, so does the
whole output. -/
theorem routePresent_sound {out t i : String} (h : routePresentSpec out t i = true) :
    containsStr out t = true ∧ containsStr out ("dev " ++ i) = true := by
  rcases List.any_eq_true.mp h with ⟨line, hline, hboth⟩
  simp only [Bool.and_eq_true] at hboth
  rcases hboth with ⟨h1, h2⟩
  have hinf := splitLines_infix hline
  constructor
  · exact containsSub_iff.mpr ((containsSub_iff.mp h1).trans hinf)
  · exact containsSub_iff.mpr ((containsSub_iff.mp h2).trans hinf)

namespace Audit

/-- C9 amended: on a successful routing-table query,
`check_network_route` returns `true` exactly when the target and
`dev <interface>` each occur somewhere in the output (not necessarily in
the same route); in particular a route to the target via the interface on
one line suffices.  A nonzero exit of the query gives `false`; any other
query failure propagates as an exception instead of returning `false`. -/
theorem network_route_amended (env : SysEnv) (t i : String) :
    (∀ out, env.routeQuery = RouteQueryResult.ok out →
       (check_network_route env t i =
          Except.ok (containsStr out t && containsStr out ("dev " ++ i)) ∧
        (routePresentSpec out t i = true → check_network_route env t i = Except.ok true))) ∧
    (env.routeQuery = RouteQueryResult.nonzeroExit →
       check_network_route env t i = Except.ok false) ∧
    (env.routeQuery = RouteQueryResult.execError →
       check_network_route env t i = Except.error ()) := by
  refine ⟨?_, ?_, ?_⟩
  · intro out hq
    have hbase : check_network_route env t i =
        Except.ok (containsStr out t && containsStr out ("dev " ++ i)) := by
      simp [check_network_route, hq]
    refine ⟨hbase, ?_⟩
    intro hspec
    rcases routePresent_sound hspec with ⟨h1, h2⟩
    rw [hbase, h1, h2]
    rfl
  · intro hq; simp [check_network_route, hq]
  · intro hq; simp [check_network_route, hq]

/-- Witness for `network_route_amended`: a table with the route present on
its first line makes the check succeed. -/
theorem network_route_amended_witness :
    check_network_route envRouteTbl "10.0.0.0" "eth0" = Except.ok true :=
  ((network_route_amended envRouteTbl "10.0.0.0" "eth0").1 routeTable rfl).2 (by decide)

theorem isOctal3_destr {s : String} (h : isOctal3 s = true) :
    ∃ a b c, s.data = [a, b, c] ∧ isOctDigitChar a = true ∧
      isOctDigitChar b = true ∧ isOctDigitChar c = true := by
  obtain ⟨l⟩ := s
  unfold isOctal3 at h
  match l, h with
  | [a, b, c], h =>
    simp only [Bool.and_eq_true] at h
    rcases h with ⟨⟨ha, hb⟩, hc⟩
    exact ⟨a, b, c, rfl, ha, hb, hc⟩

theorem pyOct_take3 {m : Nat} (h64 : 64 ≤ m) (hlt : m < 4096) :
    strTakeRight (strTakeRight (pyOct m) 4) 3 = octal3 m := by
  by_cases h512 : m < 512
  · have e : pyOct m =
        String.mk ['0', 'o', octChar (m / 64), octChar (m / 8 % 8), octChar (m % 8)] := by
      simp only [pyOct]
      rw [if_neg (by omega), if_neg (by omega), if_pos h512]
    have hdiv : m / 64 % 8 = m / 64 :=
      Nat.mod_eq_of_lt (Nat.div_lt_of_lt_mul (by omega))
    rw [e]
    simp [strTakeRight, octal3, hdiv]
  · have e : pyOct m =
        String.mk ['0', 'o', octChar (m / 512), octChar (m / 64 % 8), octChar (m / 8 % 8),
          octChar (m % 8)] := by
      simp only [pyOct]
      rw [if_neg (by omega), if_neg (by omega), if_neg h512, if_pos hlt]
    rw [e]
    simp [strTakeRight, octal3]

theorem pyOct_small_ne {m : Nat} (hm : m < 64) {exp : String} (hoct : isOctal3 exp = true) :
    strTakeRight (strTakeRight (pyOct m) 4) 3 ≠ exp := by
  rcases isOctal3_destr hoct with ⟨a, b, c, hdata, ha, hb, hc⟩
  by_cases h8 : m < 8
  · have e : pyOct m = String.mk ['0', 'o', octChar m] := by
      simp only [pyOct]
      rw [if_pos h8]
    rw [e]
    intro heq
    have hd := congrArg String.data heq
    simp only [strTakeRight] at hd
    simp at hd
    rw [hdata] at hd
    simp at hd
    rcases hd with ⟨h1, h2, h3⟩
    rw [← h2] at hb
    exact absurd hb (by decide)
  · have e : pyOct m = String.mk ['0', 'o', octChar (m / 8), octChar (m % 8)] := by
      simp only [pyOct]
      rw [if_neg h8, if_pos hm]
    rw [e]
    intro heq
    have hd := congrArg String.data heq
    simp only [strTakeRight] at hd
    simp at hd
    rw [hdata] at hd
    simp at hd
    rcases hd with ⟨h1, h2, h3⟩
    rw [← h1] at ha
    exact absurd ha (by decide)

/-- C8 amended: `check_permissions` compares the character slice
`oct(S_IMODE(mode))[-4:][-3:]` against `expected_octal`.  For permission
bits of at least `0o100` this equals the test against the true three-digit
octal rendering; for smaller permission bits the slice retains a `0` or
`o` of the literal prefix, so the check is `false` for every three-digit
octal expected string, even the correct one.  A missing path, or any
other stat failure, yields `false` and never raises. -/
theorem permission_check_amended (env : SysEnv) (fp exp : String) :
    (env.stat fp = StatResult.missingFile → check_permissions env fp exp = false) ∧
    (env.stat fp = StatResult.statError → check_permissions env fp exp = false) ∧
    (∀ mode uid, env.stat fp = StatResult.found mode uid →
      (64 ≤ mode % 4096 →
        check_permissions env fp exp = decide (octal3 (mode % 4096) = exp)) ∧
      (mode % 4096 < 64 → isOctal3 exp = true →
        check_permissions env fp exp = false)) := by
  refine ⟨?_, ?_, ?_⟩
  · intro h; simp [check_permissions, h]
  · intro h; simp [check_permissions, h]
  · intro mode uid h
    constructor
    · intro h64
      have hlt : mode % 4096 < 4096 := Nat.mod_lt _ (by omega)
      simp only [check_permissions, h]
      rw [pyOct_take3 h64 hlt]
    · intro hsmall hoct
      simp only [check_permissions, h]
      rw [decide_eq_false (pyOct_small_ne hsmall hoct)]

/-- Witness for `permission_check_amended`: a file with mode `0o600` and
the expected string `600`. -/
theorem permission_check_amended_witness :
    check_permissions envPerm600 "/home/student/game_world/access.log" "600" =
      decide (octal3 (384 % 4096) = "600") :=
  ((permission_check_amended envPerm600 "/home/student/game_world/access.log" "600").2.2
      384 0 (by decide)).1 (by decide)

end Audit

namespace Game

/-- C7 amended: `_check_path_exists` expands the leading home shorthand of
`criteria['path']` and then tests the filesystem: with the `type`
criterion `dir` it is `true` exactly when the expanded path is a
directory, with `file` exactly when it is a regular file, and with any
other token (including the word `directory`) or a missing token it is
always `false`. -/
theorem path_exists_amended (env : Env) (o : Objective) (p : String)
    (hp : getCrit o.criteria "path" = some p) (hne : p ≠ "") :
    (getCrit o.criteria "type" = some "dir" →
      check_path_exists env o = decide (env.fs (expanduser env.home p) = PathKind.dir)) ∧
    (getCrit o.criteria "type" = some "file" →
      check_path_exists env o = decide (env.fs (expanduser env.home p) = PathKind.file)) ∧
    (∀ t, getCrit o.criteria "type" = some t → t ≠ "dir" → t ≠ "file" →
      check_path_exists env o = false) ∧
    (getCrit o.criteria "type" = none → check_path_exists env o = false) := by
  refine ⟨?_, ?_, ?_, ?_⟩
  · intro ht; simp [check_path_exists, hp, hne, ht]
  · intro ht; simp [check_path_exists, hp, hne, ht]
  · intro t ht h1 h2; simp [check_path_exists, hp, hne, ht, h1, h2]
  · intro ht; simp [check_path_exists, hp, hne, ht]

/-- Witness for `path_exists_amended`: the `dir` token against an
existing home-relative directory. -/
theorem path_exists_amended_witness :
    check_path_exists envSafehouse
        { objSafehouseDirectory with criteria := [("path", "~/safehouse"), ("type", "dir")] } =
      decide (envSafehouse.fs (expanduser envSafehouse.home "~/safehouse") = PathKind.dir) :=
  (path_exists_amended envSafehouse
      { objSafehouseDirectory with criteria := [("path", "~/safehouse"), ("type", "dir")] }
      "~/safehouse" (by decide) (by decide)).1 (by decide)

end Game

/-- C2 amended: in the sequential observe path every exception raised by
a checker is caught inside `objective_checker.check` and treated as not
complete for that cycle, so `check` returns with the state unchanged; in
the gated path `Quest.is_complete` itself catches nothing — it can only
return normally when no completion check's evaluation raises, and an
exception an auditor does not handle internally propagates to the
caller. -/
theorem eval_exception_amended :
    (∀ (env : Game.Env) (s : Game.GameState) (r : Game.CommandResult) (o : Game.Objective),
        Game.get_active_objective s = some o →
        Game.dispatchObjective env o r = Except.error () →
        Game.check env s r = (s, [])) ∧
    (∀ (env : Audit.SysEnv) (q : Audit.Quest),
        (∀ c ∈ q.completion_checks, (Audit.callAudit env c.function c.args).isOk = true) →
        ∃ p, Audit.is_complete env q = Except.ok p) := by
  constructor
  · intro env s r o hao hd
    simp only [Game.check, hao]
    by_cases hrc : r.return_code ≠ 0
    · rw [if_pos hrc]
    · rw [if_neg hrc, hd]
  · intro env q htot
    exact Audit.runChecks_total htot

/-- Witness for `eval_exception_amended`: a whitespace-only successful
command makes the `command_run` checker raise `IndexError`, which the
sequential path contains; and a gated quest whose checks all evaluate
returns normally. -/
theorem eval_exception_amended_witness :
    Game.check Game.envTrivial (Game.load_quests [Game.qdTwoLs]) Game.rBlank =
      (Game.load_quests [Game.qdTwoLs], []) ∧
    ∃ p, Audit.is_complete Audit.envPerm600 Audit.qSecureLogs = Except.ok p :=
  ⟨eval_exception_amended.1 Game.envTrivial (Game.load_quests [Game.qdTwoLs]) Game.rBlank
      (Game.Objective.from_dict (Game.objLsIn "o1" "first done")) (by decide) (by decide),
   eval_exception_amended.2 Audit.envPerm600 Audit.qSecureLogs (by decide)⟩

namespace Game

/-! ### Structure lemmas for the sequential state machine -/

theorem check_some (env : Env) (s : GameState) (r : CommandResult) (o : Objective)
    (hao : get_active_objective s = some o) :
    check env s r =
      if r.return_code ≠ 0 then (s, [])
      else
        match dispatchObjective env o r with
        | Except.error _ => (s, [])
        | Except.ok false => (s, [])
        | Except.ok true => handleObjectiveSuccess s o := by
  unfold check
  rw [hao]

theorem check_branches (env : Env) (s : GameState) (r : CommandResult) :
    check env s r = (s, []) ∨
    ∃ o, get_active_objective s = some o ∧
      check env s r = handleObjectiveSuccess s o := by
  cases hao : get_active_objective s with
  | none => exact Or.inl (by simp [check, hao])
  | some o =>
    rw [check_some env s r o hao]
    by_cases hrc : r.return_code ≠ 0
    · rw [if_pos hrc]; exact Or.inl rfl
    · rw [if_neg hrc]
      cases hd : dispatchObjective env o r with
      | error e => exact Or.inl rfl
      | ok b =>
        cases b
        · exact Or.inl rfl
        · exact Or.inr ⟨o, rfl, rfl⟩

theorem handle_eq (s : GameState) (o : Objective) :
    handleObjectiveSuccess s o =
      match get_active_objective (mark_objective_complete s o.id) with
      | none =>
        ((advance_quest (mark_objective_complete s o.id)).fst,
          o.success_message :: (advance_quest (mark_objective_complete s o.id)).snd)
      | some _ => (mark_objective_complete s o.id, [o.success_message]) := rfl

theorem mark_eq {s : GameState} {q : Quest} (hc : get_current_quest s = some q)
    (oid : String) :
    mark_objective_complete s oid =
      { s with
        quests := updateFirstQ s.quests q.id
          (fun x => { x with objectives := markFirst x.objectives oid }) } := by
  simp only [mark_objective_complete, hc]

theorem current_qid_of_some {s : GameState} {q : Quest}
    (hc : get_current_quest s = some q) :
    currentQid s = some q.id ∧
    s.quests.find? (fun x => decide (x.id = q.id)) = some q := by
  unfold get_current_quest at hc
  cases hqid : currentQid s with
  | none => rw [hqid] at hc; cases hc
  | some qid =>
    rw [hqid] at hc
    have hid : q.id = qid := by simpa using List.find?_some hc
    exact ⟨by rw [hid], by rw [hid]; exact hc⟩

theorem active_destr {s : GameState} {o : Objective}
    (hao : get_active_objective s = some o) :
    ∃ q, get_current_quest s = some q ∧
      q.objectives.find? (fun x => decide (x.completed = false)) = some o := by
  unfold get_active_objective at hao
  cases hc : get_current_quest s with
  | none => rw [hc] at hao; cases hao
  | some q =>
    rw [hc] at hao
    exact ⟨q, rfl, hao⟩

theorem active_completed_false {s : GameState} {o : Objective}
    (hao : get_active_objective s = some o) : o.completed = false := by
  rcases active_destr hao with ⟨q, _, hfo⟩
  simpa using List.find?_some hfo

theorem advance_fst_quests {s : GameState} {cq : Quest}
    (hc : get_current_quest s = some cq) :
    ((advance_quest s).fst).quests =
      updateFirstQ s.quests cq.id (fun x => { x with completed := true }) := by
  simp only [advance_quest, hc]
  split
  · rfl
  · split
    · rfl
    · rfl

theorem markFirst_fa2 (l : List Objective) (oid : String) :
    List.Forall₂ ObjMono l (markFirst l oid) := by
  induction l with
  | nil => exact List.Forall₂.nil
  | cons o rest ih =>
    by_cases h : o.id = oid
    · simp only [markFirst, if_pos h]
      exact List.Forall₂.cons (Or.inr rfl) (fa2_refl (R := ObjMono) (fun x => Or.inl rfl) rest)
    · simp only [markFirst, if_neg h]
      exact List.Forall₂.cons (Or.inl rfl) ih

theorem questMono_refl (q : Quest) : QuestMono q q :=
  ⟨fa2_refl (R := ObjMono) (fun _ => Or.inl rfl) q.objectives, id⟩

theorem objMono_trans (a b c : Objective) (h1 : ObjMono a b) (h2 : ObjMono b c) :
    ObjMono a c := by
  rcases h1 with rfl | rfl <;> rcases h2 with rfl | rfl
  · exact Or.inl rfl
  · exact Or.inr rfl
  · exact Or.inr rfl
  · exact Or.inr rfl

theorem questMono_trans (a b c : Quest) (h1 : QuestMono a b) (h2 : QuestMono b c) :
    QuestMono a c :=
  ⟨fa2_trans objMono_trans h1.1 h2.1, fun h => h2.2 (h1.2 h)⟩

theorem quests_mono_mark (s : GameState) (oid : String) :
    List.Forall₂ QuestMono s.quests (mark_objective_complete s oid).quests := by
  cases hc : get_current_quest s with
  | none =>
    simp only [mark_objective_complete, hc]
    exact fa2_refl questMono_refl _
  | some q =>
    rw [mark_eq hc oid]
    refine List.Forall₂.imp ?_
      (fa2_updateFirstQ q.id
        (fun x => { x with objectives := markFirst x.objectives oid }) s.quests)
    intro x x' hx
    rcases hx with rfl | rfl
    · exact questMono_refl _
    · exact ⟨markFirst_fa2 x.objectives oid, id⟩

theorem quests_mono_advance (s : GameState) :
    List.Forall₂ QuestMono s.quests ((advance_quest s).fst).quests := by
  cases hc : get_current_quest s with
  | none =>
    simp only [advance_quest, hc]
    exact fa2_refl questMono_refl _
  | some cq =>
    rw [advance_fst_quests hc]
    refine List.Forall₂.imp ?_
      (fa2_updateFirstQ cq.id (fun x => { x with completed := true }) s.quests)
    intro x x' hx
    rcases hx with rfl | rfl
    · exact questMono_refl _
    · exact ⟨fa2_refl (R := ObjMono) (fun y => Or.inl rfl) x.objectives, fun _ => rfl⟩

theorem quests_mono_handle (s : GameState) (o : Objective) :
    List.Forall₂ QuestMono s.quests ((handleObjectiveSuccess s o).fst).quests := by
  rw [handle_eq]
  cases hao1 : get_active_objective (mark_objective_complete s o.id) with
  | some o2 => exact quests_mono_mark s o.id
  | none =>
    exact fa2_trans questMono_trans (quests_mono_mark s o.id) (quests_mono_advance _)

/-- C5 amended: every observe step only moves objective `completed` flags
from `false` to `true` (never resetting them, so each objective completes
at most once), keeps every other field intact, and the only success
message a step can emit is that of an objective that was still uncompleted
when the step began — a completed objective's success message is never
re-emitted.  The step is, however, not in general a global no-op: the same
command can complete the next uncompleted objective. -/
theorem observe_monotone (env : Env) (s : GameState) (r : CommandResult) :
    List.Forall₂ QuestMono s.quests ((check env s r).fst).quests ∧
    ((check env s r).snd = [] ∨
      ∃ o rest, get_active_objective s = some o ∧ o.completed = false ∧
        (check env s r).snd = o.success_message :: rest) := by
  rcases check_branches env s r with h | ⟨o, hao, h⟩
  · rw [h]
    exact ⟨fa2_refl questMono_refl _, Or.inl rfl⟩
  · constructor
    · rw [h]; exact quests_mono_handle s o
    · right
      have hcomp : o.completed = false := active_completed_false hao
      rw [h, handle_eq]
      cases hao1 : get_active_objective (mark_objective_complete s o.id) with
      | none => exact ⟨o, _, hao, hcomp, rfl⟩
      | some _ => exact ⟨o, [], hao, hcomp, rfl⟩

/-- Witness for `observe_monotone`: the message part evaluated on the
first observe of the two-objective quest. -/
theorem observe_monotone_witness :
    (check envTrivial (load_quests [qdTwoLs]) rLs).snd = [] ∨
      ∃ o rest, get_active_objective (load_quests [qdTwoLs]) = some o ∧
        o.completed = false ∧
        (check envTrivial (load_quests [qdTwoLs]) rLs).snd = o.success_message :: rest :=
  (observe_monotone envTrivial (load_quests [qdTwoLs]) rLs).2

/-! ### The completion invariant -/

theorem mem_dictInsert {qs : List Quest} {x q : Quest} (h : q ∈ dictInsert qs x) :
    q ∈ qs ∨ q = x := by
  unfold dictInsert at h
  by_cases hany : qs.any (fun y => decide (y.id = x.id)) = true
  · rw [if_pos hany] at h
    rcases List.mem_map.mp h with ⟨y, hy, hq⟩
    by_cases hid : y.id = x.id
    · rw [if_pos hid] at hq; exact Or.inr hq.symm
    · rw [if_neg hid] at hq; exact Or.inl (hq ▸ hy)
  · rw [if_neg hany] at h
    rcases List.mem_append.mp h with h1 | h2
    · exact Or.inl h1
    · exact Or.inr (List.mem_singleton.mp h2)

theorem mem_load_quests {ds : List QuestIn} {q : Quest}
    (h : q ∈ (load_quests ds).quests) : ∃ d, q = Quest.from_dict d := by
  have H : ∀ (ds : List QuestIn) (acc : List Quest),
      q ∈ List.foldl (fun a d => dictInsert a (Quest.from_dict d)) acc ds →
      q ∈ acc ∨ ∃ d, q = Quest.from_dict d := by
    intro ds
    induction ds with
    | nil => intro acc h0; exact Or.inl h0
    | cons d rest ih =>
      intro acc h0
      rcases ih (dictInsert acc (Quest.from_dict d)) h0 with hmem | hex
      · rcases mem_dictInsert hmem with h1 | h2
        · exact Or.inl h1
        · exact Or.inr ⟨d, h2⟩
      · exact Or.inr hex
  rcases H ds [] h with h0 | h1
  · cases h0
  · exact h1

theorem from_dict_fresh (d : QuestIn) :
    (Quest.from_dict d).completed = false ∧
    ∀ o ∈ (Quest.from_dict d).objectives, o.completed = false := by
  refine ⟨rfl, ?_⟩
  intro o ho
  rcases List.mem_map.mp ho with ⟨od, _, rfl⟩
  rfl

theorem inv_load (ds : List QuestIn) : Inv (load_quests ds) := by
  intro q hq hne
  rcases mem_load_quests hq with ⟨d, rfl⟩
  rcases from_dict_fresh d with ⟨hcm, hall⟩
  rw [hcm]
  constructor
  · intro h; cases h
  · intro hallc
    rcases List.exists_mem_of_ne_nil _ hne with ⟨o, ho⟩
    have := hallc o ho
    rw [hall o ho] at this
    exact this

theorem inv_handle {s : GameState} {o : Objective}
    (hao : get_active_objective s = some o) (hinv : Inv s) :
    Inv ((handleObjectiveSuccess s o).fst) := by
  rcases active_destr hao with ⟨q, hc, hfo⟩
  rcases current_qid_of_some hc with ⟨hqid, hfq⟩
  have hqmem : q ∈ s.quests := List.mem_of_find?_eq_some hfq
  have homem : o ∈ q.objectives := List.mem_of_find?_eq_some hfo
  have hone : o.completed = false := by simpa using List.find?_some hfo
  have hne : q.objectives ≠ [] := List.ne_nil_of_mem homem
  have hqc : q.completed = false := by
    cases hcompl : q.completed with
    | false => rfl
    | true =>
      have hallq := (hinv q hqmem hne).mp hcompl
      have := hallq o homem
      rw [hone] at this
      exact absurd this (by simp)
  have hmark := mark_eq hc o.id
  have hc1 : get_current_quest (mark_objective_complete s o.id) =
      some { q with objectives := markFirst q.objectives o.id } := by
    rw [hmark]
    show (match currentQid s with
      | none => none
      | some qid =>
        (updateFirstQ s.quests q.id
            (fun x => { x with objectives := markFirst x.objectives o.id })).find?
          (fun x => decide (x.id = qid))) =
      some { q with objectives := markFirst q.objectives o.id }
    rw [hqid]
    exact find_updateFirstQ
      (f := fun x => { x with objectives := markFirst x.objectives o.id })
      (fun x => rfl) hfq
  have hao1def : get_active_objective (mark_objective_complete s o.id) =
      (markFirst q.objectives o.id).find? (fun x => decide (x.completed = false)) := by
    unfold get_active_objective
    rw [hc1]
  rw [handle_eq]
  cases hao1 : get_active_objective (mark_objective_complete s o.id) with
  | some o2 =>
    rw [hmark]
    intro x hx hxne
    rcases mem_updateFirstQ hfq x hx with hxs | rfl
    · exact hinv x hxs hxne
    ·
      have ho2find : (markFirst q.objectives o.id).find?
          (fun x => decide (x.completed = false)) = some o2 := by
        rw [← hao1def]; exact hao1
      have ho2mem : o2 ∈ markFirst q.objectives o.id :=
        List.mem_of_find?_eq_some ho2find
      have ho2false : o2.completed = false := by simpa using List.find?_some ho2find
      refine iff_of_false ?_ ?_
      · show ¬ (q.completed = true)
        rw [hqc]; simp
      · intro hall
        have := hall o2 ho2mem
        rw [ho2false] at this
        exact absurd this (by simp)
  | none =>
    have hq2 := advance_fst_quests hc1
    intro x hx hxne
    rw [hq2, hmark] at hx
    rcases mem_updateTwiceQ
        (f := fun y => { y with objectives := markFirst y.objectives o.id })
        (g := fun y => { y with completed := true })
        (fun y => rfl) hfq x hx with hxs | rfl
    · exact hinv x hxs hxne
    ·
      refine iff_of_true rfl ?_
      intro ob hob
      have hnone : (markFirst q.objectives o.id).find?
          (fun x => decide (x.completed = false)) = none := by
        rw [← hao1def]; exact hao1
      have := List.find?_eq_none.mp hnone ob hob
      simpa using this

theorem inv_check (env : Env) (s : GameState) (r : CommandResult) (hinv : Inv s) :
    Inv ((check env s r).fst) := by
  rcases check_branches env s r with h | ⟨o, hao, h⟩
  · rw [h]; exact hinv
  · rw [h]; exact inv_handle hao hinv

/-- C1 amended: in every state reachable by loading a catalog and then
observing any sequence of command outcomes, a quest with at least one
objective has `completed = true` exactly when all of its objectives are
completed.  (For a quest with an empty objectives list the biconditional
fails: all zero objectives are vacuously completed while the flag stays
`false`.) -/
theorem quest_completed_iff_nonempty {s : GameState} (hs : Reachable s) :
    ∀ q ∈ s.quests, q.objectives ≠ [] →
      (q.completed = true ↔ ∀ o ∈ q.objectives, o.completed = true) := by
  induction hs with
  | load ds => exact inv_load ds
  | step s env r _ ih => exact inv_check env s r ih

/-- Witness for `quest_completed_iff_nonempty` at the freshly loaded
two-objective quest. -/
theorem quest_completed_iff_nonempty_witness :
    (Quest.from_dict qdTwoLs).completed = true ↔
      ∀ o ∈ (Quest.from_dict qdTwoLs).objectives, o.completed = true :=
  quest_completed_iff_nonempty (Reachable.load [qdTwoLs]) (Quest.from_dict qdTwoLs)
    (by decide) (by decide)

end Game

end Supershell
